import Mathlib

/-!
Verification of the patina repository-freshness core

Shallow embedding of the patina Go sources (`freshness.go`, the cache
implementation, and the non-HTTP parts of `patina.go`) together with
theorems settling the specification claims.

Conventions of the embedding:
* Go `time.Time` values are modelled as `Int` nanoseconds since an epoch;
  `time.Duration` is likewise `Int` nanoseconds.  `time.Time.Sub` saturates
  at the `int64` bounds, which `timeSub` reproduces.
* Fallible Go functions (returning `(T, error)`) are modelled with
  `Except`/`Option`; a Go `panic` is modelled as `Option.none`.
* The file system under the cache base directory is modelled as a map from
  path strings to stored documents.
-/

/-! ## Time model (Go `time` package, as used by patina) -/

/-- Nanoseconds in one hour: Go's `time.Hour`. -/
def nsPerHour : Int := 3600 * 1000000000

/-- Nanoseconds in one day (`24 * time.Hour`). -/
def nsPerDay : Int := 24 * nsPerHour

/-- Largest `time.Duration` (`int64` max), at which `Time.Sub` saturates. -/
def maxDuration : Int := 2 ^ 63 - 1

/-- Smallest `time.Duration` (`int64` min), at which `Time.Sub` saturates. -/
def minDuration : Int := -(2 ^ 63)

/-- Go `t.Sub(u)`: the difference `t - u`, clamped to the `int64` range. -/
def timeSub (t u : Int) : Int := max minDuration (min maxDuration (t - u))

/-! ## Freshness classifier (`freshness.go`) -/

/-- Embeds `Freshness` from `freshness.go`: the staleness level of a repository.
(The Go type is a string type; `CalculateFreshness` only ever produces the
three constants `green`, `yellow`, `red`, which are the constructors here.) -/
inductive Freshness where
  | green
  | yellow
  | red
deriving DecidableEq, Repr, Inhabited

/-- Embeds `yellowThreshold = 2 * 30 * 24 * time.Hour` from `freshness.go`. -/
def yellowThreshold : Int := 2 * 30 * 24 * nsPerHour

/-- Embeds `redThreshold = 6 * 30 * 24 * time.Hour` from `freshness.go`. -/
def redThreshold : Int := 6 * 30 * 24 * nsPerHour

/-- Embeds `CalculateFreshness` from `freshness.go`: age-based classification with
strict greater-than comparisons against the two thresholds. -/
def CalculateFreshness (lastUpdated now : Int) : Freshness :=
  let age := timeSub now lastUpdated
  if age > redThreshold then .red
  else if age > yellowThreshold then .yellow
  else .green

/-- Embeds `pluralize` from `freshness.go`. -/
def pluralize (n : Int) (unit : String) : String :=
  if n = 1 then "1 " ++ unit else toString n ++ " " ++ unit ++ "s"

/-- Embeds `Age` from `freshness.go`: human-readable age string.
Go computes `days := int(duration.Hours() / 24)` with `float64` arithmetic;
for the whole-day durations the claims evaluate this equals truncated
integer division of the nanosecond duration by one day, which is how `days`
is computed here (`Int.tdiv` truncates toward zero like Go's `int`
conversion and integer division). -/
def Age (lastUpdated now : Int) : String :=
  let duration := timeSub now lastUpdated
  let days := duration.tdiv nsPerDay
  if days < 1 then "today"
  else if days = 1 then "1 day ago"
  else if days < 30 then pluralize days "day" ++ " ago"
  else
    let months := days.tdiv 30
    if months < 12 then pluralize months "month" ++ " ago"
    else
      let years := months.tdiv 12
      let remainingMonths := months.tmod 12
      if remainingMonths = 0 then pluralize years "year" ++ " ago"
      else pluralize years "year" ++ ", " ++ pluralize remainingMonths "month" ++ " ago"

/-! ## Repository data model (cache source file) -/

/-- Embeds `Repository` from the cache source: a GitHub repository snapshot. -/
structure Repository where
  name : String
  fullName : String
  lastUpdated : Int
  htmlURL : String
deriving DecidableEq, Repr, Inhabited

/-- Embeds `FreshnessSummary` from `patina.go`. -/
structure FreshnessSummary where
  green : Nat
  yellow : Nat
  red : Nat
  total : Nat
deriving DecidableEq, Repr, Inhabited

/-- Embeds `CalculateSummary` from `patina.go`: `Total` is the input length and the
loop buckets each repository by its freshness. -/
def CalculateSummary (repos : List Repository) (now : Int) : FreshnessSummary :=
  repos.foldl
    (fun summary repo =>
      match CalculateFreshness repo.lastUpdated now with
      | .green => { summary with green := summary.green + 1 }
      | .yellow => { summary with yellow := summary.yellow + 1 }
      | .red => { summary with red := summary.red + 1 })
    { green := 0, yellow := 0, red := 0, total := repos.length }

/-! ## Claim C1 -/

/-- C1: for every pair of timestamps, `CalculateFreshness` is determined by
the age `now - lastUpdated` with strict greater-than comparisons: green iff
age ≤ 60 days, yellow iff 60 days < age ≤ 180 days, red iff age > 180 days.
The three right-hand conditions are mutually exclusive and exhaustive, so
exactly one classification holds; in particular an age of exactly 60 days is
green, exactly 180 days is yellow, and any negative age is green. -/
theorem calculateFreshness_thresholds (lastUpdated now : Int) :
    (CalculateFreshness lastUpdated now = Freshness.green ↔
      now - lastUpdated ≤ 60 * nsPerDay) ∧
    (CalculateFreshness lastUpdated now = Freshness.yellow ↔
      60 * nsPerDay < now - lastUpdated ∧ now - lastUpdated ≤ 180 * nsPerDay) ∧
    (CalculateFreshness lastUpdated now = Freshness.red ↔
      180 * nsPerDay < now - lastUpdated) := by
  simp only [CalculateFreshness, timeSub, yellowThreshold, redThreshold, nsPerDay,
    nsPerHour, maxDuration, minDuration]
  split_ifs <;> simp_all <;> omega

/-! ## Claim C4 -/

/-- The six repositories of the spec scenario, last updated exactly
{1, 30, 90, 120, 400, 800} days before a reference time of `0`. -/
def scenarioRepos : List Repository :=
  [ { name := "d1", fullName := "o/d1", lastUpdated := -(1 * nsPerDay), htmlURL := "" }
  , { name := "d30", fullName := "o/d30", lastUpdated := -(30 * nsPerDay), htmlURL := "" }
  , { name := "d90", fullName := "o/d90", lastUpdated := -(90 * nsPerDay), htmlURL := "" }
  , { name := "d120", fullName := "o/d120", lastUpdated := -(120 * nsPerDay), htmlURL := "" }
  , { name := "d400", fullName := "o/d400", lastUpdated := -(400 * nsPerDay), htmlURL := "" }
  , { name := "d800", fullName := "o/d800", lastUpdated := -(800 * nsPerDay), htmlURL := "" } ]

/-- C4 counterexample: for the 800-day-old entry, `Age` returns
"2 years, 2 months ago" (800 days → 26 months → 2 years and 2 remaining
months), not "2 years ago" as the claim states. -/
theorem age800_not_two_years :
    Age (-(800 * nsPerDay)) 0 = "2 years, 2 months ago" ∧
    Age (-(800 * nsPerDay)) 0 ≠ "2 years ago" := by
  constructor <;> decide

/-- C4 (amended): for the six-repository scenario, `CalculateSummary` yields
{green: 2, yellow: 2, red: 2, total: 6}, `Age` for the 400-day-old entry is
"1 year, 1 month ago", and `Age` for the 800-day-old entry is
"2 years, 2 months ago". -/
theorem scenarioSummary_and_ages :
    CalculateSummary scenarioRepos 0 =
      { green := 2, yellow := 2, red := 2, total := 6 } ∧
    Age (-(400 * nsPerDay)) 0 = "1 year, 1 month ago" ∧
    Age (-(800 * nsPerDay)) 0 = "2 years, 2 months ago" := by
  refine ⟨by decide, by decide, by decide⟩

/-! ## Go `sort.Slice` (pdqsort) embedding

`SortByAge`/`SortByAgeDesc` in `patina.go` call Go's `sort.Slice`, which is
pattern-defeating quicksort (`pdqsort_func` in the `sort` package, Go ≥ 1.19)
and is documented as *not* guaranteed stable.  The functions below translate
that algorithm; the imperative loops are written as fuelled recursions (the
fuel given by the callers exceeds every loop bound, so it never runs out on
the inputs evaluated here), and the in-place slice is passed as an explicit
list with integer indices. -/

section GoSort

variable {α : Type} [Inhabited α]

/-- Read `data[i]` (indices are in range in every use below). -/
def aget (l : List α) (i : Int) : α := l.getD i.toNat default

/-- Write `data[i] = v`. -/
def aset (l : List α) (i : Int) (v : α) : List α := l.set i.toNat v

/-- Go `data.Swap(i, j)`. -/
def aswap (l : List α) (i j : Int) : List α :=
  let vi := aget l i
  let vj := aget l j
  aset (aset l i vj) j vi

/-- Go `data.Less(i, j)`. -/
def altB (less : α → α → Bool) (l : List α) (i j : Int) : Bool :=
  less (aget l i) (aget l j)

/-- Inner loop of `insertionSort_func`. -/
def insertionSortInner (less : α → α → Bool) (l : List α) (a j : Int) :
    Nat → List α
  | 0 => l
  | fuel + 1 =>
    if a < j ∧ altB less l j (j - 1) = true then
      insertionSortInner less (aswap l j (j - 1)) a (j - 1) fuel
    else l

/-- Outer loop of `insertionSort_func`. -/
def insertionSortOuter (less : α → α → Bool) (l : List α) (a b i : Int) :
    Nat → List α
  | 0 => l
  | fuel + 1 =>
    if i < b then
      insertionSortOuter less (insertionSortInner less l a i ((i - a).toNat + 1))
        a b (i + 1) fuel
    else l

/-- Embeds `insertionSort_func(data, a, b)` from Go's sort package. -/
def insertionSortGo (less : α → α → Bool) (l : List α) (a b : Int) : List α :=
  insertionSortOuter less l a b (a + 1) ((b - a).toNat + 1)

/-- Embeds `siftDown_func(data, lo, hi, first)`; the `root` variable is the `lo`
argument of the recursion. -/
def siftDownGo (less : α → α → Bool) (l : List α) (root hi first : Int) :
    Nat → List α
  | 0 => l
  | fuel + 1 =>
    let child := 2 * root + 1
    if child ≥ hi then l
    else
      let child :=
        if child + 1 < hi ∧ altB less l (first + child) (first + child + 1) = true then
          child + 1
        else child
      if altB less l (first + root) (first + child) = false then l
      else siftDownGo less (aswap l (first + root) (first + child)) child hi first fuel

/-- Heap-construction loop of `heapSort_func`. -/
def heapSortBuild (less : α → α → Bool) (l : List α) (hi first i : Int) :
    Nat → List α
  | 0 => l
  | fuel + 1 =>
    if i ≥ 0 then
      heapSortBuild less (siftDownGo less l i hi first (hi.toNat + 1)) hi first (i - 1) fuel
    else l

/-- Pop loop of `heapSort_func`. -/
def heapSortPop (less : α → α → Bool) (l : List α) (first i : Int) :
    Nat → List α
  | 0 => l
  | fuel + 1 =>
    if i ≥ 0 then
      heapSortPop less
        (siftDownGo less (aswap l first (first + i)) 0 i first (i.toNat + 1))
        first (i - 1) fuel
    else l

/-- Embeds `heapSort_func(data, a, b)` from Go's sort package. -/
def heapSortGo (less : α → α → Bool) (l : List α) (a b : Int) : List α :=
  let first := a
  let hi := b - a
  let l' := heapSortBuild less l hi first ((hi - 1).tdiv 2) (hi.toNat + 1)
  heapSortPop less l' first (hi - 1) (hi.toNat + 1)

/-- Embeds `reverseRange_func(data, a, b)`, called with `i = a`, `j = b - 1`. -/
def reverseRangeGo (l : List α) (i j : Int) : Nat → List α
  | 0 => l
  | fuel + 1 => if i < j then reverseRangeGo (aswap l i j) (i + 1) (j - 1) fuel else l

/-- Embeds `order2_func`: orders the two indices, counting an index swap. -/
def order2Go (less : α → α → Bool) (l : List α) (a b : Int) (swaps : Nat) :
    Int × Int × Nat :=
  if altB less l b a = true then (b, a, swaps + 1) else (a, b, swaps)

/-- Embeds `median_func`: index of the median of `data[a]`, `data[b]`, `data[c]`. -/
def medianGo (less : α → α → Bool) (l : List α) (a b c : Int) (swaps : Nat) :
    Int × Nat :=
  let r1 := order2Go less l a b swaps
  let r2 := order2Go less l r1.2.1 c r1.2.2
  let r3 := order2Go less l r1.1 r2.1 r2.2.2
  (r3.2.1, r3.2.2)

/-- Embeds `medianAdjacent_func`: median of `data[a-1]`, `data[a]`, `data[a+1]`. -/
def medianAdjacentGo (less : α → α → Bool) (l : List α) (a : Int) (swaps : Nat) :
    Int × Nat :=
  medianGo less l (a - 1) a (a + 1) swaps

/-- The `sortedHint` type of Go's sort package. -/
inductive SortedHint where
  | unknown
  | increasing
  | decreasing
deriving DecidableEq, Repr, Inhabited

/-- Embeds `choosePivot_func(data, a, b)`: candidates at `l/4`, `2*l/4`, `3*l/4`;
ninther for lengths ≥ 50, median-of-three for lengths ≥ 8; the swap count
gives the sortedness hint. -/
def choosePivotGo (less : α → α → Bool) (l : List α) (a b : Int) :
    Int × SortedHint :=
  let len := b - a
  let i := a + len.tdiv 4 * 1
  let j := a + len.tdiv 4 * 2
  let k := a + len.tdiv 4 * 3
  let r :=
    if len ≥ 8 then
      let r0 :=
        if len ≥ 50 then
          let m1 := medianAdjacentGo less l i 0
          let m2 := medianAdjacentGo less l j m1.2
          let m3 := medianAdjacentGo less l k m2.2
          (m1.1, m2.1, m3.1, m3.2)
        else (i, j, k, (0 : Nat))
      medianGo less l r0.1 r0.2.1 r0.2.2.1 r0.2.2.2
    else (j, (0 : Nat))
  if r.2 = 0 then (r.1, .increasing)
  else if r.2 = 12 then (r.1, .decreasing)
  else (r.1, .unknown)

/-- Scan of `partialInsertionSort_func`: advance `i` over in-order pairs. -/
def pisScan (less : α → α → Bool) (l : List α) (b i : Int) : Nat → Int
  | 0 => i
  | fuel + 1 =>
    if i < b ∧ altB less l i (i - 1) = false then pisScan less l b (i + 1) fuel else i

/-- Left shift loop of `partialInsertionSort_func`. -/
def pisShiftLeft (less : α → α → Bool) (l : List α) (j : Int) : Nat → List α
  | 0 => l
  | fuel + 1 =>
    if j ≥ 1 ∧ altB less l j (j - 1) = true then
      pisShiftLeft less (aswap l j (j - 1)) (j - 1) fuel
    else l

/-- Right shift loop of `partialInsertionSort_func`. -/
def pisShiftRight (less : α → α → Bool) (l : List α) (b j : Int) : Nat → List α
  | 0 => l
  | fuel + 1 =>
    if j < b ∧ altB less l j (j - 1) = true then
      pisShiftRight less (aswap l j (j - 1)) b (j + 1) fuel
    else l

/-- Main loop of `partialInsertionSort_func` (`maxSteps = 5`,
`shortestShifting = 50`); returns the data and whether it ended sorted. -/
def pisLoop (less : α → α → Bool) (l : List α) (a b i step : Int) :
    Nat → List α × Bool
  | 0 => (l, false)
  | fuel + 1 =>
    if step ≥ 5 then (l, false)
    else
      let i' := pisScan less l b i ((b - i).toNat + 1)
      if i' = b then (l, true)
      else if b - a < 50 then (l, false)
      else
        let l1 := aswap l i' (i' - 1)
        let l2 := if i' - a ≥ 2 then pisShiftLeft less l1 (i' - 1) ((i' - 1).toNat + 1) else l1
        let l3 := if b - i' ≥ 2 then pisShiftRight less l2 b (i' + 1) ((b - i').toNat + 1) else l2
        pisLoop less l3 a b i' (step + 1) fuel

/-- Embeds `partialInsertionSort_func(data, a, b)`. -/
def partialInsertionSortGo (less : α → α → Bool) (l : List α) (a b : Int) :
    List α × Bool :=
  pisLoop less l a b (a + 1) 0 6

/-- Embeds `i`-scan of `partition_func`: `for i <= j && data.Less(i, a) { i++ }`. -/
def partScanI (less : α → α → Bool) (l : List α) (pa i j : Int) : Nat → Int
  | 0 => i
  | fuel + 1 =>
    if i ≤ j ∧ altB less l i pa = true then partScanI less l pa (i + 1) j fuel else i

/-- Embeds `j`-scan of `partition_func`: `for i <= j && !data.Less(j, a) { j-- }`. -/
def partScanJ (less : α → α → Bool) (l : List α) (pa i j : Int) : Nat → Int
  | 0 => j
  | fuel + 1 =>
    if i ≤ j ∧ altB less l j pa = false then partScanJ less l pa i (j - 1) fuel else j

/-- Pairwise swap loop of `partition_func`. -/
def partLoop (less : α → α → Bool) (l : List α) (pa i j : Int) :
    Nat → List α × Int
  | 0 => (l, j)
  | fuel + 1 =>
    let i' := partScanI less l pa i j ((j - i).toNat + 2)
    let j' := partScanJ less l pa i' j ((j - i').toNat + 2)
    if i' > j' then (l, j')
    else partLoop less (aswap l i' j') pa (i' + 1) (j' - 1) fuel

/-- Embeds `partition_func(data, a, b, pivot)`: Hoare partition after moving the
pivot to `data[a]`; returns the data, the pivot's final position, and
whether the range was already partitioned. -/
def partitionGo (less : α → α → Bool) (l : List α) (a b pivot : Int) :
    List α × Int × Bool :=
  let l0 := aswap l a pivot
  let i := a + 1
  let j := b - 1
  let i' := partScanI less l0 a i j ((j - i).toNat + 2)
  let j' := partScanJ less l0 a i' j ((j - i').toNat + 2)
  if i' > j' then (aswap l0 j' a, j', true)
  else
    let l1 := aswap l0 i' j'
    let r := partLoop less l1 a (i' + 1) (j' - 1) ((b - a).toNat + 2)
    (aswap r.1 r.2 a, r.2, false)

/-- Embeds `i`-scan of `partitionEqual_func`: `for i <= j && !data.Less(a, i)`. -/
def peScanI (less : α → α → Bool) (l : List α) (pa i j : Int) : Nat → Int
  | 0 => i
  | fuel + 1 =>
    if i ≤ j ∧ altB less l pa i = false then peScanI less l pa (i + 1) j fuel else i

/-- Embeds `j`-scan of `partitionEqual_func`: `for i <= j && data.Less(a, j)`. -/
def peScanJ (less : α → α → Bool) (l : List α) (pa i j : Int) : Nat → Int
  | 0 => j
  | fuel + 1 =>
    if i ≤ j ∧ altB less l pa j = true then peScanJ less l pa i (j - 1) fuel else j

/-- Swap loop of `partitionEqual_func`; returns the data and the final `i`. -/
def peLoop (less : α → α → Bool) (l : List α) (pa i j : Int) :
    Nat → List α × Int
  | 0 => (l, i)
  | fuel + 1 =>
    let i' := peScanI less l pa i j ((j - i).toNat + 2)
    let j' := peScanJ less l pa i' j ((j - i').toNat + 2)
    if i' > j' then (l, i')
    else peLoop less (aswap l i' j') pa (i' + 1) (j' - 1) fuel

/-- Embeds `partitionEqual_func(data, a, b, pivot)`. -/
def partitionEqualGo (less : α → α → Bool) (l : List α) (a b pivot : Int) :
    List α × Int :=
  let l0 := aswap l a pivot
  peLoop less l0 a (a + 1) (b - 1) ((b - a).toNat + 2)

/-- One step of the `xorshift` generator of Go's sort package
(`uint64` arithmetic, modelled modulo `2 ^ 64`). -/
def xorshiftNext (r : Nat) : Nat :=
  let r1 := (r ^^^ (r <<< 13)) % 2 ^ 64
  let r2 := r1 ^^^ (r1 >>> 7)
  (r2 ^^^ (r2 <<< 17)) % 2 ^ 64

/-- Go `bits.Len` for unsigned values: bits needed to represent `n`. -/
def bitsLen (n : Nat) : Nat := if n = 0 then 0 else Nat.log2 n + 1

/-- Swap loop of `breakPatterns_func` (three iterations). -/
def bpLoop (l : List α) (a len idx : Int) (random modulus : Nat) (i : Int) :
    Nat → List α
  | 0 => l
  | fuel + 1 =>
    if i < 3 then
      let random' := xorshiftNext random
      let otherN : Nat := random' &&& (modulus - 1)
      let other : Int := (otherN : Int)
      let other' := if other ≥ len then other - len else other
      bpLoop (aswap l (idx - 1 + i) (a + other')) a len idx random' modulus (i + 1) fuel
    else l

/-- Embeds `breakPatterns_func(data, a, b)`: scatters three elements using an
`xorshift` generator seeded with the range length. -/
def breakPatternsGo (l : List α) (a b : Int) : List α :=
  let len := b - a
  if len ≥ 8 then
    let random : Nat := len.toNat
    let modulus : Nat := 1 <<< bitsLen len.toNat
    let idx := a + len.tdiv 4 * 2 - 1
    bpLoop l a len idx random modulus 0 4
  else l

/-- Embeds `pdqsort_func(data, a, b, limit)` from Go's sort package.  The
`wasBalanced`/`wasPartitioned` flags enter each call as `true` (as the Go
function initialises them) and the loop-carried updates are the tail
recursive calls. -/
def pdqsortGo (less : α → α → Bool) :
    Nat → List α → Int → Int → Int → Bool → Bool → List α
  | 0, l, _, _, _, _, _ => l
  | fuel + 1, l, a, b, limit, wasBalanced, wasPartitioned =>
    let length := b - a
    if length ≤ 12 then insertionSortGo less l a b
    else if limit = 0 then heapSortGo less l a b
    else
      let s :=
        if wasBalanced = false then (breakPatternsGo l a b, limit - 1)
        else (l, limit)
      let l0 := s.1
      let limit' := s.2
      let pv := choosePivotGo less l0 a b
      let t :=
        if pv.2 = SortedHint.decreasing then
          (reverseRangeGo l0 a (b - 1) ((b - a).toNat + 1), b - 1 - (pv.1 - a),
            SortedHint.increasing)
        else (l0, pv.1, pv.2)
      let l1 := t.1
      let pivot := t.2.1
      let hint := t.2.2
      let u :=
        if wasBalanced = true ∧ wasPartitioned = true ∧ hint = SortedHint.increasing then
          partialInsertionSortGo less l1 a b
        else (l1, false)
      if u.2 = true then u.1
      else
        let l2 := u.1
        if a > 0 ∧ altB less l2 (a - 1) pivot = false then
          let r := partitionEqualGo less l2 a b pivot
          pdqsortGo less fuel r.1 r.2 b limit' wasBalanced wasPartitioned
        else
          let r := partitionGo less l2 a b pivot
          let l3 := r.1
          let mid := r.2.1
          let alreadyPartitioned := r.2.2
          let leftLen := mid - a
          let rightLen := b - mid
          let balanceThreshold := length.tdiv 8
          let newBalanced := decide (min leftLen rightLen ≥ balanceThreshold)
          if leftLen < rightLen then
            pdqsortGo less fuel (pdqsortGo less fuel l3 a mid limit' true true)
              (mid + 1) b limit' newBalanced alreadyPartitioned
          else
            pdqsortGo less fuel (pdqsortGo less fuel l3 (mid + 1) b limit' true true)
              a mid limit' newBalanced alreadyPartitioned

/-- Go `sort.Slice(x, less)`: pdqsort over the whole slice with recursion
budget `bits.Len(length)`. -/
def sortSliceGo (less : α → α → Bool) (xs : List α) : List α :=
  pdqsortGo less (xs.length * xs.length + xs.length + 64) xs 0 (xs.length : Int)
    (bitsLen xs.length : Nat) true true

end GoSort

/-- Embeds `SortByAge` from `patina.go`: `sort.Slice` with
`repos[i].LastUpdated.Before(repos[j].LastUpdated)` (oldest first).  Go sorts
the slice in place; the model returns the sorted list. -/
def SortByAge (repos : List Repository) : List Repository :=
  sortSliceGo (fun x y => decide (x.lastUpdated < y.lastUpdated)) repos

/-- Embeds `SortByAgeDesc` from `patina.go`: `sort.Slice` with
`repos[i].LastUpdated.After(repos[j].LastUpdated)` (newest first). -/
def SortByAgeDesc (repos : List Repository) : List Repository :=
  sortSliceGo (fun x y => decide (y.lastUpdated < x.lastUpdated)) repos

/-- Embeds `GetTopStale` from `patina.go`.  Go returns `nil` for an empty input,
otherwise sorts a copy and returns `sorted[:n]` after clamping `n` from
above to `len(sorted)`; a slice expression with a negative bound panics,
which the model renders as `none`. -/
def GetTopStale (repos : List Repository) (n : Int) : Option (List Repository) :=
  if repos.length = 0 then some []
  else
    let sorted := SortByAge repos
    let n' := if n > (sorted.length : Int) then (sorted.length : Int) else n
    if 0 ≤ n' ∧ n' ≤ (sorted.length : Int) then some (sorted.take n'.toNat) else none

/-! ## Claim C3 -/

/-- Thirteen repositories for the stability check: all share the last-updated
timestamp `1000` except `r6`, which is older (timestamp `0`).  A stable sort
by age must output `r6` first and then `r0 … r5, r7 … r12` in input order. -/
def tiedRepos : List Repository :=
  [ { name := "r0", fullName := "", lastUpdated := 1000, htmlURL := "" }
  , { name := "r1", fullName := "", lastUpdated := 1000, htmlURL := "" }
  , { name := "r2", fullName := "", lastUpdated := 1000, htmlURL := "" }
  , { name := "r3", fullName := "", lastUpdated := 1000, htmlURL := "" }
  , { name := "r4", fullName := "", lastUpdated := 1000, htmlURL := "" }
  , { name := "r5", fullName := "", lastUpdated := 1000, htmlURL := "" }
  , { name := "r6", fullName := "", lastUpdated := 0, htmlURL := "" }
  , { name := "r7", fullName := "", lastUpdated := 1000, htmlURL := "" }
  , { name := "r8", fullName := "", lastUpdated := 1000, htmlURL := "" }
  , { name := "r9", fullName := "", lastUpdated := 1000, htmlURL := "" }
  , { name := "r10", fullName := "", lastUpdated := 1000, htmlURL := "" }
  , { name := "r11", fullName := "", lastUpdated := 1000, htmlURL := "" }
  , { name := "r12", fullName := "", lastUpdated := 1000, htmlURL := "" } ]

/-- C3 (code bug): `SortByAge` uses Go's unstable `sort.Slice`; on
`tiedRepos` the Hoare partition of pdqsort moves equal-timestamp
repositories past each other, so the output order of the ties is
`r3, r2, r0, r4, r5, r1, r7, …` rather than the input order
`r0, r1, r2, r3, r4, r5, r7, …` that the claimed stable sort requires. -/
theorem sortByAge_reorders_ties :
    (SortByAge tiedRepos).map Repository.name =
      ["r6", "r3", "r2", "r0", "r4", "r5", "r1",
        "r7", "r8", "r9", "r10", "r11", "r12"] ∧
    (SortByAge tiedRepos).map Repository.name ≠
      ["r6", "r0", "r1", "r2", "r3", "r4", "r5",
        "r7", "r8", "r9", "r10", "r11", "r12"] := by
  constructor <;> decide

/-! ## Claim C10 -/

/-- C10: `GetTopStale` is total only for `n ≥ 0`: on any non-empty input a
negative `n` survives the only clamp (`n > len` never holds for negative
`n`), so the slice expression `sorted[:n]` panics; on empty input the
function returns `nil` before slicing, for every `n`. -/
theorem getTopStale_negative_panics (repos : List Repository) (n : Int) :
    (repos ≠ [] → n < 0 → GetTopStale repos n = none) ∧
    GetTopStale [] n = some [] := by
  constructor
  · intro hne hn
    have hlen : ¬ repos.length = 0 := by
      simpa [List.length_eq_zero] using hne
    have hcast : (0 : Int) ≤ ((SortByAge repos).length : Int) := by positivity
    simp only [GetTopStale, if_neg hlen]
    have h1 : ¬ n > ((SortByAge repos).length : Int) := by omega
    rw [if_neg h1]
    have h2 : ¬ ((0 : Int) ≤ n ∧ n ≤ ((SortByAge repos).length : Int)) := by omega
    rw [if_neg h2]
  · simp [GetTopStale]

/-- C10 witness: a concrete non-empty list with `n = -1` panics (`none`),
and the empty list with a negative `n` yields `nil`. -/
theorem getTopStale_negative_panics_witness :
    GetTopStale [{ name := "a", fullName := "", lastUpdated := 5, htmlURL := "" }]
      (-1) = none ∧
    GetTopStale [] (-1) = some [] :=
  ⟨(getTopStale_negative_panics
      [{ name := "a", fullName := "", lastUpdated := 5, htmlURL := "" }] (-1)).1
      (by decide) (by decide),
   (getTopStale_negative_panics [] (-1)).2⟩

/-! ## Go `path/filepath` embedding (Unix separator)

`cacheFilePath` in the cache source is `filepath.Join(c.baseDir, org+".json")`.
`filepath.Join` concatenates the non-empty elements with `/` and applies the
lexical `Clean` algorithm (skip empty and `.` segments; `..` backtracks over
the previous segment, is dropped at the root of an absolute path, and is kept
at the head of a relative path).  `Clean` is embedded here at segment level:
split on `/`, process the segments, rejoin. -/

/-- Split a character list on `'/'`, keeping empty segments. -/
def splitSlashAux : List Char → List Char → List String
  | [], acc => [String.mk acc.reverse]
  | c :: rest, acc =>
    if c = '/' then String.mk acc.reverse :: splitSlashAux rest []
    else splitSlashAux rest (c :: acc)

/-- All `/`-separated segments of a path string. -/
def splitSlash (s : String) : List String := splitSlashAux s.data []

/-- Whether the path is rooted (absolute). -/
def startsWithSlash (s : String) : Bool :=
  match s.data with
  | [] => false
  | c :: _ => c = '/'

/-- One segment of Go `path.Clean`'s scan; `out` holds the already-emitted
segments in reverse order. -/
def cleanSegsStep (rooted : Bool) (out : List String) (seg : String) : List String :=
  if seg = "" ∨ seg = "." then out
  else if seg = ".." then
    match out with
    | [] => if rooted then [] else [".."]
    | last :: rest => if last = ".." then ".." :: last :: rest else rest
  else seg :: out

/-- Join segments with `/` (Go `strings.Join(segs, "/")`). -/
def joinSegs : List String → String
  | [] => ""
  | [x] => x
  | x :: xs => x ++ "/" ++ joinSegs xs

/-- Final assembly of Go `path.Clean`: re-attach the root, or `"."` for an
empty relative result. -/
def renderPath (rooted : Bool) (out : List String) : String :=
  if rooted then
    if joinSegs out = "" then "/" else "/" ++ joinSegs out
  else
    if joinSegs out = "" then "." else joinSegs out

/-- Go `path.Clean` (hence `filepath.Clean` on Unix). -/
def goPathClean (s : String) : String :=
  if s = "" then "."
  else
    renderPath (startsWithSlash s)
      (((splitSlash s).foldl (cleanSegsStep (startsWithSlash s)) []).reverse)

/-- Go `filepath.Join` of two elements: non-empty elements joined with `/`,
then cleaned. -/
def filepathJoin (a b : String) : String :=
  if a = "" ∧ b = "" then ""
  else if a = "" then goPathClean b
  else if b = "" then goPathClean a
  else goPathClean (a ++ "/" ++ b)

/-- Embeds `cacheFilePath` from the cache source:
`filepath.Join(c.baseDir, org+".json")` with no sanitization of `org`. -/
def cacheFilePath (baseDir org : String) : String :=
  filepathJoin baseDir (org ++ ".json")

/-- Predicate `leadsList l m`: `l` is an initial run of `m`. -/
def leadsList : List Char → List Char → Bool
  | [], _ => true
  | _ :: _, [] => false
  | a :: as, b :: bs => a = b && leadsList as bs

/-- Whether `p` is a location inside directory `base`: `p` extends `base ++ "/"`. -/
def insideDir (base p : String) : Bool := leadsList (base ++ "/").data p.data

/-! ## Claim C2 -/

/-- Structure eta for strings. -/
theorem mk_data_eq (s : String) : String.mk s.data = s := rfl

/-- String append is associative. -/
theorem strAppend_assoc (a b c : String) : a ++ b ++ c = a ++ (b ++ c) := by
  apply String.ext
  simp [String.data_append]

/-- Splitting across an explicit separator splits into two runs. -/
theorem splitSlashAux_append (m : List Char) :
    ∀ (l acc : List Char),
      splitSlashAux (l ++ '/' :: m) acc = splitSlashAux l acc ++ splitSlashAux m []
  | [], _ => by simp [splitSlashAux]
  | c :: rest, acc => by
    by_cases hc : c = '/'
    · subst hc
      simp [splitSlashAux, splitSlashAux_append m rest]
    · simp [splitSlashAux, hc, splitSlashAux_append m rest]

/-- A separator-free run is a single segment. -/
theorem splitSlashAux_noSlash :
    ∀ (l acc : List Char), ¬ '/' ∈ l →
      splitSlashAux l acc = [String.mk (acc.reverse ++ l)]
  | [], _, _ => by simp [splitSlashAux]
  | c :: rest, acc, h => by
    have hmem : ¬ '/' ∈ rest := fun hh => h (List.mem_cons_of_mem _ hh)
    have hc : ¬ c = '/' := fun hh => h (hh ▸ List.mem_cons_self _ _)
    simp [splitSlashAux, hc, splitSlashAux_noSlash rest (c :: acc) hmem]

/-- Appending one segment to a join appends it after a separator. -/
theorem joinSegs_concat (x : String) :
    ∀ l : List String,
      joinSegs (l ++ [x]) = if l = [] then x else joinSegs l ++ "/" ++ x
  | [] => by simp [joinSegs]
  | [a] => by simp [joinSegs]
  | a :: b :: t => by
    have ih := joinSegs_concat x (b :: t)
    rw [if_neg (by simp)] at ih
    simp only [List.cons_append] at ih ⊢
    show a ++ "/" ++ joinSegs (b :: (t ++ [x])) = _
    rw [if_neg (by simp)]
    show _ = a ++ "/" ++ joinSegs (b :: t) ++ "/" ++ x
    rw [ih]
    simp [strAppend_assoc]

/-- A normal segment (not empty, not a dot segment) is pushed by the clean
scan. -/
theorem cleanSegsStep_push (rooted : Bool) (out : List String) (x : String)
    (h0 : x ≠ "") (h1 : x ≠ ".") (h2 : x ≠ "..") :
    cleanSegsStep rooted out x = x :: out := by
  simp [cleanSegsStep, h0, h1, h2]

/-- Rootedness of an extension of a non-empty path. -/
theorem startsWithSlash_append (a b : String) (h : a ≠ "") :
    startsWithSlash (a ++ b) = startsWithSlash a := by
  cases a with
  | mk d =>
    cases d with
    | nil => exact absurd rfl h
    | cons c t => simp [startsWithSlash, String.data_append]

/-- The segment `org ++ ".json"` is never empty or a dot segment. -/
theorem orgJson_ne (org : String) :
    org ++ ".json" ≠ "" ∧ org ++ ".json" ≠ "." ∧ org ++ ".json" ≠ ".." := by
  have h5 : (".json" : String).data.length = 5 := by decide
  have key : ∀ t : String, t.data.length < 5 → org ++ ".json" ≠ t := by
    intro t ht h
    have hl := congrArg (fun s => s.data.length) h
    simp only [String.data_append, List.length_append, h5] at hl
    omega
  exact ⟨key "" (by decide), key "." (by decide), key ".." (by decide)⟩

/-- The segment `org ++ ".json"` contains no separator when `org` contains none. -/
theorem orgJson_noSlash (org : String) (h : ¬ '/' ∈ org.data) :
    ¬ '/' ∈ (org ++ ".json").data := by
  have hj : ¬ '/' ∈ (".json" : String).data := by decide
  simp only [String.data_append, List.mem_append]
  intro hc
  rcases hc with hc | hc
  · exact h hc
  · exact hj hc

/-- A path of the form `a ++ "/" ++ b` is never empty. -/
theorem slashAppend_ne_empty (a b : String) : a ++ "/" ++ b ≠ "" := by
  intro h
  have h1 : (("/" : String)).data.length = 1 := by decide
  have hl := congrArg (fun s => s.data.length) h
  simp only [String.data_append, List.length_append, h1] at hl
  have h0 : (("" : String)).data.length = 0 := by decide
  rw [h0] at hl
  omega

/-- A character run leads every extension of itself. -/
theorem leadsList_append (m : List Char) : ∀ l : List Char, leadsList l (l ++ m) = true
  | [] => rfl
  | c :: t => by simp [leadsList, leadsList_append m t]

/-- Rendering after pushing one more ordinary segment appends it after a
separator, for a path that rendered to a non-degenerate base. -/
theorem renderPath_concat (rooted : Bool) (out : List String) (x base : String)
    (hrp : renderPath rooted out = base) (hb2 : base ≠ "/") (hb3 : base ≠ ".") :
    renderPath rooted (out ++ [x]) = base ++ "/" ++ x := by
  cases rooted
  · simp only [renderPath, Bool.false_eq_true, if_false] at hrp ⊢
    by_cases hb : joinSegs out = ""
    · rw [if_pos hb] at hrp
      exact absurd hrp.symm hb3
    · rw [if_neg hb] at hrp
      have houtne : out ≠ [] := fun hh => hb (by rw [hh]; rfl)
      rw [joinSegs_concat, if_neg houtne]
      rw [if_neg (slashAppend_ne_empty _ _), hrp]
  · simp only [renderPath, if_true] at hrp ⊢
    by_cases hb : joinSegs out = ""
    · rw [if_pos hb] at hrp
      exact absurd hrp.symm hb2
    · rw [if_neg hb] at hrp
      have houtne : out ≠ [] := fun hh => hb (by rw [hh]; rfl)
      rw [joinSegs_concat, if_neg houtne]
      rw [if_neg (slashAppend_ne_empty _ _)]
      rw [← hrp]
      simp [strAppend_assoc]

/-- C2 (amended): the cache file path is `filepath.Join(baseDir, org+".json")`
with no sanitization of the organization name.  For any clean, non-degenerate
base directory and any organization name without a path separator the path
stays inside the base directory (it is literally
`baseDir ++ "/" ++ org ++ ".json"`); escape from the base directory is
possible through separators in the name, as `cacheFilePath_escape` shows with
a `..`-carrying name. -/
theorem cacheFilePath_unsanitized (baseDir org : String)
    (h1 : goPathClean baseDir = baseDir) (h2 : baseDir ≠ "/") (h3 : baseDir ≠ ".")
    (h4 : ¬ '/' ∈ org.data) :
    cacheFilePath baseDir org = baseDir ++ "/" ++ (org ++ ".json") ∧
    insideDir baseDir (cacheFilePath baseDir org) = true := by
  obtain ⟨hx0, hxd, hxdd⟩ := orgJson_ne org
  have hxs := orgJson_noSlash org h4
  have hb0 : baseDir ≠ "" := by
    intro hb
    rw [hb] at h1
    exact absurd h1 (by decide)
  have hjoin : cacheFilePath baseDir org
      = goPathClean (baseDir ++ "/" ++ (org ++ ".json")) := by
    simp [cacheFilePath, filepathJoin, hb0, hx0]
  have hdata : (baseDir ++ "/" ++ (org ++ ".json")).data
      = baseDir.data ++ '/' :: (org ++ ".json").data := by
    simp [String.data_append]
  have hmk : String.mk (List.reverse ([] : List Char) ++ (org ++ ".json").data)
      = org ++ ".json" := by
    rw [List.reverse_nil, List.nil_append, mk_data_eq]
  have hsplit : splitSlash (baseDir ++ "/" ++ (org ++ ".json"))
      = splitSlash baseDir ++ [org ++ ".json"] := by
    unfold splitSlash
    rw [hdata, splitSlashAux_append, splitSlashAux_noSlash _ [] hxs, hmk]
  have hroot : startsWithSlash (baseDir ++ "/" ++ (org ++ ".json"))
      = startsWithSlash baseDir := by
    rw [strAppend_assoc]
    exact startsWithSlash_append _ _ hb0
  have hne := slashAppend_ne_empty baseDir (org ++ ".json")
  have hclean : goPathClean (baseDir ++ "/" ++ (org ++ ".json"))
      = renderPath (startsWithSlash baseDir)
          ((((splitSlash baseDir).foldl (cleanSegsStep (startsWithSlash baseDir)) []).reverse)
            ++ [org ++ ".json"]) := by
    rw [goPathClean, if_neg hne, hroot, hsplit, List.foldl_append]
    rw [List.foldl_cons, List.foldl_nil,
      cleanSegsStep_push (startsWithSlash baseDir) _ _ hx0 hxd hxdd]
    rw [List.reverse_cons]
  have h1' : renderPath (startsWithSlash baseDir)
      (((splitSlash baseDir).foldl (cleanSegsStep (startsWithSlash baseDir)) []).reverse)
      = baseDir := by
    conv_rhs => rw [← h1]
    rw [goPathClean, if_neg hb0]
  have hmain : goPathClean (baseDir ++ "/" ++ (org ++ ".json"))
      = baseDir ++ "/" ++ (org ++ ".json") := by
    rw [hclean]
    exact renderPath_concat _ _ _ _ h1' h2 h3
  refine ⟨hjoin.trans hmain, ?_⟩
  rw [hjoin, hmain]
  unfold insideDir
  have hd2 : (baseDir ++ "/" ++ (org ++ ".json")).data
      = (baseDir ++ "/").data ++ (org ++ ".json").data := by
    simp [String.data_append]
  rw [hd2]
  exact leadsList_append _ _

/-- C2 counterexample: an organization name carrying `..` segments resolves
the cache file path outside the base directory — no sanitization happens. -/
theorem cacheFilePath_escape :
    cacheFilePath "/home/user/.cache/patina" "../../../../tmp/evil" = "/tmp/evil.json" ∧
    insideDir "/home/user/.cache/patina"
      (cacheFilePath "/home/user/.cache/patina" "../../../../tmp/evil") = false := by
  constructor <;> decide

/-- C2 witness: a clean absolute base directory and a separator-free
organization name give the in-base path. -/
theorem cacheFilePath_unsanitized_witness :
    cacheFilePath "/home/u/.cache/patina" "my-org" =
      "/home/u/.cache/patina" ++ "/" ++ ("my-org" ++ ".json") ∧
    insideDir "/home/u/.cache/patina"
      (cacheFilePath "/home/u/.cache/patina" "my-org") = true :=
  cacheFilePath_unsanitized "/home/u/.cache/patina" "my-org" (by decide) (by decide)
    (by decide) (by decide)

/-! ## Cache persistence model (cache source file)

The snapshot is serialized with `json.MarshalIndent` and read back with
`json.Unmarshal`.  The document shape (objects with the struct-tag field
names, arrays, strings, numbers) is modelled by `Jval`; indentation and the
RFC 3339 text form of timestamps are presentation details abstracted away —
timestamps are stored as their nanosecond value.  The files under the cache
base directory are a map from path to stored document. -/

/-- JSON-like document values. -/
inductive Jval where
  | str (s : String)
  | num (n : Int)
  | arr (xs : List Jval)
  | obj (fields : List (String × Jval))
deriving Repr, Inhabited

/-- Embeds `OrganizationCache` from the cache source. -/
structure OrganizationCache where
  organization : String
  fetchedAt : Int
  repositories : List Repository
deriving DecidableEq, Repr, Inhabited

/-- Serialization of a `Repository` (field names from the struct tags). -/
def encodeRepository (r : Repository) : Jval :=
  .obj [("name", .str r.name), ("full_name", .str r.fullName),
        ("last_updated", .num r.lastUpdated), ("html_url", .str r.htmlURL)]

/-- Field lookup in a serialized object (`encoding/json` matches by name). -/
def jLookup (fields : List (String × Jval)) (k : String) : Option Jval :=
  match fields with
  | [] => none
  | (k', v) :: rest => if k' = k then some v else jLookup rest k

/-- Expect a string value. -/
def jStr : Option Jval → Option String
  | some (.str s) => some s
  | _ => none

/-- Expect a numeric (timestamp) value. -/
def jNum : Option Jval → Option Int
  | some (.num n) => some n
  | _ => none

/-- Deserialization of a `Repository`. -/
def decodeRepository : Jval → Option Repository
  | .obj fields =>
    match jStr (jLookup fields "name"), jStr (jLookup fields "full_name"),
        jNum (jLookup fields "last_updated"), jStr (jLookup fields "html_url") with
    | some n, some f, some t, some u =>
        some { name := n, fullName := f, lastUpdated := t, htmlURL := u }
    | _, _, _, _ => none
  | _ => none

/-- Deserialization of the repository array, element-wise. -/
def decodeRepos : List Jval → Option (List Repository)
  | [] => some []
  | j :: rest =>
    match decodeRepository j, decodeRepos rest with
    | some r, some rs => some (r :: rs)
    | _, _ => none

/-- Serialization of an `OrganizationCache`. -/
def encodeOrgCache (d : OrganizationCache) : Jval :=
  .obj [("organization", .str d.organization), ("fetched_at", .num d.fetchedAt),
        ("repositories", .arr (d.repositories.map encodeRepository))]

/-- Deserialization of an `OrganizationCache`. -/
def decodeOrgCache : Jval → Option OrganizationCache
  | .obj fields =>
    match jStr (jLookup fields "organization"), jNum (jLookup fields "fetched_at"),
        jLookup fields "repositories" with
    | some o, some t, some (.arr xs) =>
      match decodeRepos xs with
      | some rs => some { organization := o, fetchedAt := t, repositories := rs }
      | none => none
    | _, _, _ => none
  | _ => none

/-- A repository round-trips through the serialization. -/
theorem decodeRepository_encode (r : Repository) :
    decodeRepository (encodeRepository r) = some r := rfl

/-- A repository list round-trips through the serialization. -/
theorem decodeRepos_encode (rs : List Repository) :
    decodeRepos (rs.map encodeRepository) = some rs := by
  induction rs with
  | nil => rfl
  | cons r t ih => simp [decodeRepos, decodeRepository_encode, ih]

/-- A snapshot round-trips through the serialization. -/
theorem decodeOrgCache_encode (d : OrganizationCache) :
    decodeOrgCache (encodeOrgCache d) = some d := by
  simp [encodeOrgCache, decodeOrgCache, jLookup, jStr, jNum, decodeRepos_encode]

/-- Contents of the cache directory: path ↦ stored document. -/
def CacheFS : Type := String → Option Jval

/-- Embeds `Cache` from the cache source: carries the base directory. -/
structure Cache where
  baseDir : String

/-- Embeds `cacheValidity = 30 * 24 * time.Hour` from the cache source. -/
def cacheValidity : Int := 30 * 24 * nsPerHour

/-- Embeds `Cache.Save`: overwrites `data.FetchedAt` with the save-time clock
reading (the `saveNow` argument models the `time.Now()` call inside `Save`),
then writes the serialized snapshot at `cacheFilePath`, replacing any prior
file for that organization.  (`os.MkdirAll` is abstracted; a failing save is
modelled at the call site by leaving the file system unchanged.) -/
def Cache.save (c : Cache) (fs : CacheFS) (data : OrganizationCache)
    (saveNow : Int) : CacheFS :=
  let stamped := { data with fetchedAt := saveNow }
  fun p =>
    if p = cacheFilePath c.baseDir data.organization then some (encodeOrgCache stamped)
    else fs p

/-- The error kinds of `Cache.LoadWithTime` (`ErrCacheNotFound`,
`ErrCacheExpired`, and read/parse failures). -/
inductive LoadError where
  | notFound
  | expired
  | ioError
deriving DecidableEq, Repr, Inhabited

/-- Embeds `Cache.LoadWithTime`: read the file (missing file → `ErrCacheNotFound`),
parse it (failure → I/O error), and reject snapshots whose age exceeds
`cacheValidity` with `ErrCacheExpired`.  The Go function returns the partial
value alongside a non-nil error; by Go convention that value is dead on
error, so the embedding returns only the error. -/
def Cache.loadWithTime (c : Cache) (fs : CacheFS) (org : String) (now : Int) :
    Except LoadError OrganizationCache :=
  match fs (cacheFilePath c.baseDir org) with
  | none => .error .notFound
  | some doc =>
    match decodeOrgCache doc with
    | none => .error .ioError
    | some data =>
      if timeSub now data.fetchedAt > cacheValidity then .error .expired
      else .ok data

/-! ## Scanner (`patina.go`) -/

/-- Embeds `ScanResult` from `patina.go`. -/
structure ScanResult where
  organization : String
  repositories : List Repository
  fetchedAt : Int
  fromCache : Bool
deriving DecidableEq, Repr, Inhabited

/-- The observable outcome of one `Scanner.Scan` call: the returned value or
error, the cache contents afterwards, and whether the Fetcher was invoked. -/
structure ScanStep where
  result : Except String ScanResult
  fs : CacheFS
  fetcherCalled : Bool

/-- Embeds `Scanner.Scan` from `patina.go`.  `client` is the injected
`GitHubClient.FetchRepositories`; `now` models the `time.Now()` at entry and
`saveNow` the `time.Now()` inside `Cache.Save`; `saveOk` models whether the
save succeeds (a failing save is only warned about and leaves the scan
result untouched). -/
def Scanner.scan (client : String → Except String (List Repository)) (c : Cache)
    (fs : CacheFS) (org : String) (refresh : Bool) (now saveNow : Int)
    (saveOk : Bool) : ScanStep :=
  let fetchPath : ScanStep :=
    match client org with
    | .error e => { result := .error e, fs := fs, fetcherCalled := true }
    | .ok repos =>
      let cacheData : OrganizationCache :=
        { organization := org, fetchedAt := now, repositories := repos }
      let fs' := if saveOk then Cache.save c fs cacheData saveNow else fs
      { result := .ok { organization := org, repositories := repos,
                        fetchedAt := now, fromCache := false },
        fs := fs', fetcherCalled := true }
  if refresh then fetchPath
  else
    match Cache.loadWithTime c fs org now with
    | .ok cached =>
      { result := .ok { organization := org, repositories := cached.repositories,
                        fetchedAt := cached.fetchedAt, fromCache := true },
        fs := fs, fetcherCalled := false }
    | .error _ => fetchPath
/-! ## Claim C7 -/

/-- The file just written by `Cache.save` holds the stamped snapshot. -/
theorem save_read_back (c : Cache) (fs : CacheFS) (snap : OrganizationCache)
    (T : Int) :
    Cache.save c fs snap T (cacheFilePath c.baseDir snap.organization)
      = some (encodeOrgCache { snap with fetchedAt := T }) := by
  rw [Cache.save]
  simp

/-- Loading after a save reduces to the expiry test against the save time. -/
theorem load_after_save (c : Cache) (fs : CacheFS) (snap : OrganizationCache)
    (T R : Int) :
    Cache.loadWithTime c (Cache.save c fs snap T) snap.organization R
      = if timeSub R T > cacheValidity then .error .expired
        else .ok { snap with fetchedAt := T } := by
  rw [Cache.loadWithTime, save_read_back]
  simp only [decodeOrgCache_encode]

/-- C7: loading a snapshot saved at time `T` with reference time `R` fails
with the Expired kind iff `R - T > 30` days; in particular loading at
`T + 31` days is Expired while loading at `T + 29` days succeeds.  The
expired outcome is `Except.error LoadError.expired`, which carries no
snapshot, so the stale data is not handed to the caller. -/
theorem loadWithTime_expiry (c : Cache) (fs : CacheFS) (snap : OrganizationCache)
    (T R : Int) :
    (Cache.loadWithTime c (Cache.save c fs snap T) snap.organization R
        = .error .expired ↔ 30 * nsPerDay < R - T) ∧
    Cache.loadWithTime c (Cache.save c fs snap T) snap.organization
        (T + 31 * nsPerDay) = .error .expired ∧
    Cache.loadWithTime c (Cache.save c fs snap T) snap.organization
        (T + 29 * nsPerDay) = .ok { snap with fetchedAt := T } := by
  refine ⟨?_, ?_, ?_⟩
  · rw [load_after_save]
    constructor
    · intro h
      by_cases hc : timeSub R T > cacheValidity
      · simp only [timeSub, cacheValidity, nsPerDay, nsPerHour, maxDuration,
          minDuration] at hc ⊢
        omega
      · rw [if_neg hc] at h
        exact absurd h (by simp)
    · intro h
      have hc : timeSub R T > cacheValidity := by
        simp only [timeSub, cacheValidity, nsPerDay, nsPerHour, maxDuration,
          minDuration] at h ⊢
        omega
      rw [if_pos hc]
  · rw [load_after_save,
      if_pos (by simp only [timeSub, cacheValidity, nsPerDay, nsPerHour,
        maxDuration, minDuration]; omega)]
  · rw [load_after_save,
      if_neg (by simp only [timeSub, cacheValidity, nsPerDay, nsPerHour,
        maxDuration, minDuration]; omega)]

/-! ## Claim C8 -/

/-- C8: `Cache.Save` overwrites whatever `fetchedAt` the caller supplied:
the persisted state is identical for any two caller-side `fetchedAt` values,
and loading right after saving returns the snapshot stamped with the save
time. -/
theorem save_overwrites_fetchedAt (c : Cache) (fs : CacheFS)
    (snap : OrganizationCache) (t f1 f2 : Int) :
    Cache.save c fs { snap with fetchedAt := f1 } t
      = Cache.save c fs { snap with fetchedAt := f2 } t ∧
    Cache.loadWithTime c (Cache.save c fs snap t) snap.organization t
      = .ok { snap with fetchedAt := t } := by
  constructor
  · funext p
    rfl
  · rw [load_after_save,
      if_neg (by simp only [timeSub, cacheValidity, nsPerDay, nsPerHour,
        maxDuration, minDuration]; omega)]

/-! ## Claim C9 -/

/-- C9: save followed by an immediate load for the same organization
succeeds and is an exact round-trip: the returned snapshot carries exactly
the saved repository list (all fields, in order), with only `fetchedAt`
stamped by the save. -/
theorem save_load_roundtrip (c : Cache) (fs : CacheFS)
    (snap : OrganizationCache) (t : Int) :
    Cache.loadWithTime c (Cache.save c fs snap t) snap.organization t
      = .ok { snap with fetchedAt := t } ∧
    ({ snap with fetchedAt := t } : OrganizationCache).repositories
      = snap.repositories := by
  constructor
  · rw [load_after_save,
      if_neg (by simp only [timeSub, cacheValidity, nsPerDay, nsPerHour,
        maxDuration, minDuration]; omega)]
  · rfl
/-! ## Claim C5 -/

/-- C5: starting from a cache with no entry for `org`, a first
`Scan(org, refresh=false)` invokes the Fetcher and returns `fromCache =
false`; any second `Scan(org, refresh=false)` within the cache validity
window (measured from the save time `s0` of the first scan) returns
`fromCache = true` without invoking the Fetcher and leaves the cache
unchanged — so repeated `refresh=false` scans invoke the Fetcher at most
once; a subsequent `Scan(org, refresh=true)` invokes the Fetcher again and
returns `fromCache = false`. -/
theorem scan_cache_idempotence
    (client : String → Except String (List Repository)) (c : Cache) (fs0 : CacheFS)
    (org : String) (repos : List Repository) (t0 s0 t1 s1 t2 s2 : Int)
    (saveOk1 : Bool)
    (hfs : fs0 (cacheFilePath c.baseDir org) = none)
    (hclient : client org = .ok repos)
    (hwin : timeSub t1 s0 ≤ cacheValidity) :
    (Scanner.scan client c fs0 org false t0 s0 true).fetcherCalled = true ∧
    (Scanner.scan client c fs0 org false t0 s0 true).result
      = .ok ⟨org, repos, t0, false⟩ ∧
    (Scanner.scan client c (Scanner.scan client c fs0 org false t0 s0 true).fs
        org false t1 s1 saveOk1).fetcherCalled = false ∧
    (Scanner.scan client c (Scanner.scan client c fs0 org false t0 s0 true).fs
        org false t1 s1 saveOk1).result
      = .ok ⟨org, repos, s0, true⟩ ∧
    (Scanner.scan client c (Scanner.scan client c fs0 org false t0 s0 true).fs
        org false t1 s1 saveOk1).fs
      = (Scanner.scan client c fs0 org false t0 s0 true).fs ∧
    (Scanner.scan client c (Scanner.scan client c (Scanner.scan client c fs0 org
        false t0 s0 true).fs org false t1 s1 saveOk1).fs org true t2 s2 true).fetcherCalled
      = true ∧
    (Scanner.scan client c (Scanner.scan client c (Scanner.scan client c fs0 org
        false t0 s0 true).fs org false t1 s1 saveOk1).fs org true t2 s2 true).result
      = .ok ⟨org, repos, t2, false⟩ := by
  have hload0 : Cache.loadWithTime c fs0 org t0 = .error .notFound := by
    rw [Cache.loadWithTime, hfs]
  have hstep1 : Scanner.scan client c fs0 org false t0 s0 true
      = ⟨.ok ⟨org, repos, t0, false⟩,
         Cache.save c fs0 ⟨org, t0, repos⟩ s0, true⟩ := by
    rw [Scanner.scan]
    simp only [Bool.false_eq_true, if_false, hload0, hclient, if_true]
  have hcached : Cache.loadWithTime c (Cache.save c fs0 ⟨org, t0, repos⟩ s0) org t1
      = .ok ⟨org, s0, repos⟩ := by
    have h := load_after_save c fs0 ⟨org, t0, repos⟩ s0 t1
    rw [h, if_neg (by omega)]
  have hstep2 : Scanner.scan client c (Scanner.scan client c fs0 org false t0 s0 true).fs
      org false t1 s1 saveOk1
      = ⟨.ok ⟨org, repos, s0, true⟩,
         (Scanner.scan client c fs0 org false t0 s0 true).fs, false⟩ := by
    rw [hstep1]
    rw [Scanner.scan]
    simp only [Bool.false_eq_true, if_false, hcached]
  have hstep3 : ∀ fsx : CacheFS, Scanner.scan client c fsx org true t2 s2 true
      = ⟨.ok ⟨org, repos, t2, false⟩,
         Cache.save c fsx ⟨org, t2, repos⟩ s2, true⟩ := by
    intro fsx
    rw [Scanner.scan]
    simp only [if_true, hclient]
  refine ⟨?_, ?_, ?_, ?_, ?_, ?_, ?_⟩
  · rw [hstep1]
  · rw [hstep1]
  · rw [hstep2]
  · rw [hstep2]
  · rw [hstep2]
  · rw [hstep2, hstep3]
  · rw [hstep2, hstep3]

/-- C5 witness: with a mock Fetcher returning one repository, concrete
times, and an empty cache, the first scan invokes the Fetcher and the second
scan within the validity window does not. -/
theorem scan_cache_idempotence_witness :
    (Scanner.scan (fun _ => Except.ok [(⟨"a", "o/a", 7, "u"⟩ : Repository)])
      ⟨"/b"⟩ (fun _ => none) "org" false 0 0 true).fetcherCalled = true ∧
    (Scanner.scan (fun _ => Except.ok [(⟨"a", "o/a", 7, "u"⟩ : Repository)])
      ⟨"/b"⟩
      (Scanner.scan (fun _ => Except.ok [(⟨"a", "o/a", 7, "u"⟩ : Repository)])
        ⟨"/b"⟩ (fun _ => none) "org" false 0 0 true).fs
      "org" false 1 1 true).fetcherCalled = false := by
  have h := scan_cache_idempotence
    (fun _ => Except.ok [(⟨"a", "o/a", 7, "u"⟩ : Repository)])
    ⟨"/b"⟩ (fun _ => none) "org" [(⟨"a", "o/a", 7, "u"⟩ : Repository)]
    0 0 1 1 2 2 true rfl rfl (by decide)
  exact ⟨h.1, h.2.2.1⟩

/-! ## Claim C6 -/

/-- C6: if fetching is required (refresh requested, or the cache load did
not succeed) and the Fetcher fails, `Scan` returns that same Fetcher error
and leaves the cache untouched; conversely, when the Fetcher succeeds but
the cache save fails, `Scan` still succeeds with the freshly fetched data
(`fromCache = false`) and the failing save leaves the cache unchanged. -/
theorem scan_error_handling
    (client : String → Except String (List Repository)) (c : Cache) (fs : CacheFS)
    (org : String) (refresh : Bool) (now saveNow : Int) (saveOk : Bool)
    (e : String) (repos : List Repository) :
    (client org = .error e →
      (refresh = true ∨ ∀ d, Cache.loadWithTime c fs org now ≠ .ok d) →
      Scanner.scan client c fs org refresh now saveNow saveOk
        = ⟨.error e, fs, true⟩) ∧
    (client org = .ok repos →
      (refresh = true ∨ ∀ d, Cache.loadWithTime c fs org now ≠ .ok d) →
      Scanner.scan client c fs org refresh now saveNow false
        = ⟨.ok ⟨org, repos, now, false⟩, fs, true⟩) := by
  constructor
  · intro hclient hneed
    rw [Scanner.scan]
    cases refresh with
    | true => simp only [if_true, hclient]
    | false =>
      simp only [Bool.false_eq_true, if_false]
      rcases hneed with hr | hload
      · exact absurd hr (by simp)
      · cases hres : Cache.loadWithTime c fs org now with
        | ok d => exact absurd hres (hload d)
        | error le => simp only [hclient]
  · intro hclient hneed
    rw [Scanner.scan]
    cases refresh with
    | true => simp only [if_true, hclient, Bool.false_eq_true, if_false]
    | false =>
      simp only [Bool.false_eq_true, if_false]
      rcases hneed with hr | hload
      · exact absurd hr (by simp)
      · cases hres : Cache.loadWithTime c fs org now with
        | ok d => exact absurd hres (hload d)
        | error le => simp only [hclient, Bool.false_eq_true, if_false]

/-- C6 witness: a failing mock Fetcher makes a refresh scan fail with the
same error and an unchanged cache; a succeeding mock Fetcher with a failing
save still yields the fresh result. -/
theorem scan_error_handling_witness :
    Scanner.scan (fun _ => Except.error "boom") ⟨"/b"⟩ (fun _ => none)
      "org" true 0 0 true = ⟨.error "boom", fun _ => none, true⟩ ∧
    Scanner.scan (fun _ => Except.ok ([] : List Repository)) ⟨"/b"⟩
      (fun _ => none) "org" true 0 0 false
      = ⟨.ok ⟨"org", [], 0, false⟩, fun _ => none, true⟩ :=
  ⟨(scan_error_handling (fun _ => Except.error "boom") ⟨"/b"⟩
      (fun _ => none) "org" true 0 0 true "boom" []).1 rfl (Or.inl rfl),
   (scan_error_handling (fun _ => Except.ok ([] : List Repository)) ⟨"/b"⟩
      (fun _ => none) "org" true 0 0 false "e" []).2 rfl (Or.inl rfl)⟩
